import Mathlib

/-!
Verification of the Training-Metrics-Database widget core
(`src/widget.js`): the payload normaliser `normalisePayload`, the
request-URL builder `buildRequestUrl` and the palette generator
`buildPalette` are embedded shallowly over a model of loosely-typed
JavaScript values, and the specified properties are proved about the
embedded functions.
-/

set_option autoImplicit false

namespace TMDWidget

/-- Model of a JavaScript number: a finite value (idealised as a rational,
which in particular contains every finite IEEE double), `NaN`, or one of
the two infinities. -/
inductive JNum where
  | fin (q : ℚ)
  | nan
  | inf
  | negInf
deriving DecidableEq, Repr

/-- `Number.isFinite`. -/
def JNum.isFinite : JNum → Bool
  | .fin _ => true
  | _ => false

/-- Model of a loosely-typed JavaScript value as it can occur in the
widget's untrusted inputs (parsed JSON payloads and caller-supplied
settings): primitives, arrays and plain objects.  Object fields are an
ordered association list, as produced by a JSON parser. -/
inductive JValue where
  | undefined
  | null
  | bool (b : Bool)
  | num (n : JNum)
  | str (s : String)
  | arr (elems : List JValue)
  | obj (fields : List (String × JValue))

/-- JavaScript truthiness: `undefined`, `null`, `false`, `0`, `NaN` and
the empty string are falsy; every other value is truthy. -/
def truthy : JValue → Bool
  | .undefined => false
  | .null => false
  | .bool b => b
  | .num (.fin q) => decide (q ≠ 0)
  | .num .nan => false
  | .num .inf => true
  | .num .negInf => true
  | .str s => decide (s ≠ "")
  | .arr _ => true
  | .obj _ => true

/-- Property access `v?.k` (optional chaining): reading a field of a
non-object, of `null` or of `undefined` yields `undefined`; on an object
the last binding of the key wins (matching object construction, where a
repeated key overwrites the earlier one). -/
def getField (v : JValue) (k : String) : JValue :=
  match v with
  | .obj fields => fields.foldl (fun acc f => if f.1 == k then f.2 else acc) JValue.undefined
  | _ => JValue.undefined

/-- The nullish-coalescing operator `a ?? b`. -/
def nullish (a b : JValue) : JValue :=
  match a with
  | .null => b
  | .undefined => b
  | _ => a

/-- Numeric value of a list of decimal digits. -/
def natOfDigits (cs : List Char) : Nat :=
  cs.foldl (fun n c => n * 10 + (c.toNat - 48)) 0

/-- Left-pad a string with the digit zero up to length `k`. -/
def padZeros (s : String) (k : Nat) : String :=
  String.mk (List.replicate (k - s.length) (Char.ofNat 48)) ++ s

/-- Render a rational as JavaScript renders the corresponding number:
integers without a fractional part, other values as a finite decimal
expansion.  Every finite IEEE double has a denominator that is a power of
two, hence a finite decimal expansion; the search bound of 1200 digits
covers every double.  (Unreachable fallback: numerator/denominator
form.) -/
def ratToString (q : ℚ) : String :=
  if q.den = 1 then toString q.num
  else
    match (List.range 1200).find? (fun k => 10 ^ k % q.den == 0) with
    | some k =>
        let n := q.num.natAbs * (10 ^ k / q.den)
        let sgn := if q.num < 0 then "-" else ""
        let frac := toString (n % 10 ^ k)
        sgn ++ toString (n / 10 ^ k) ++ "." ++ padZeros frac k
    | none => toString q.num ++ "/" ++ toString q.den

/-- `String(n)` for a number. -/
def JNum.render : JNum → String
  | .nan => "NaN"
  | .inf => "Infinity"
  | .negInf => "-Infinity"
  | .fin q => ratToString q

mutual

/-- Model of JavaScript `ToString`: strings unchanged, numbers rendered,
arrays joined by commas with `null`/`undefined` elements becoming empty
strings (the `Array.prototype.toString` behaviour), plain objects as
`[object Object]`. -/
def jsToString : JValue → String
  | .undefined => "undefined"
  | .null => "null"
  | .bool b => if b then "true" else "false"
  | .num n => n.render
  | .str s => s
  | .arr xs => String.intercalate "," (jsArrayElems xs)
  | .obj _ => "[object Object]"

/-- Elementwise stringification used by `Array.prototype.join`:
`null` and `undefined` become the empty string. -/
def jsArrayElems : List JValue → List String
  | [] => []
  | v :: vs =>
      (match v with
        | .null => ""
        | .undefined => ""
        | w => jsToString w) :: jsArrayElems vs

end

/-- JavaScript whitespace, restricted to the common characters. -/
def isJsSpace (c : Char) : Bool :=
  c == Char.ofNat 32 || c == Char.ofNat 9 || c == Char.ofNat 10
    || c == Char.ofNat 13 || c == Char.ofNat 12 || c == Char.ofNat 11

/-- Does the character list start with the given pattern? -/
def startsWithChars (cs pat : List Char) : Bool :=
  match cs, pat with
  | _, [] => true
  | [], _ :: _ => false
  | c :: cs, d :: ds => c == d && startsWithChars cs ds

/-- Split a character list at the first dot, if any. -/
def splitAtDot (cs : List Char) : List Char × Option (List Char) :=
  match cs with
  | [] => ([], none)
  | c :: rest =>
      if c == Char.ofNat 46 then ([], some rest)
      else
        let (a, b) := splitAtDot rest
        (c :: a, b)

/-- Model of `ToNumber` on a string: trimmed; empty means `0`; an
optional sign followed by `Infinity` or by a plain decimal numeral
(integer part and/or fractional part); anything else is `NaN`.
(Hexadecimal and exponent notations are outside the model; the widget
never feeds them in.) -/
def strToNumber (s : String) : JNum :=
  let t := ((s.data.dropWhile isJsSpace).reverse.dropWhile isJsSpace).reverse
  match t with
  | [] => .fin 0
  | _ =>
    let neg := startsWithChars t [Char.ofNat 45]
    let body := if neg || startsWithChars t [Char.ofNat 43] then t.drop 1 else t
    let sgn : ℚ := if neg then -1 else 1
    if body == "Infinity".data then (if neg then .negInf else .inf)
    else
      match splitAtDot body with
      | (a, none) =>
          if !a.isEmpty && a.all Char.isDigit then
            .fin (sgn * (natOfDigits a : ℚ))
          else .nan
      | (a, some b) =>
          if (!a.isEmpty || !b.isEmpty) && a.all Char.isDigit
              && b.all Char.isDigit && !b.any (fun c => c == Char.ofNat 46) then
            .fin (sgn * ((natOfDigits a : ℚ) + (natOfDigits b : ℚ) / 10 ^ b.length))
          else .nan

/-- Model of JavaScript `Number(v)`: numbers unchanged, `null` is `0`,
`undefined` is `NaN`, booleans are `0`/`1`, strings are parsed, and
arrays/objects go through `ToString` first (`ToPrimitive`). -/
def toNumber : JValue → JNum
  | .num n => n
  | .null => .fin 0
  | .undefined => .nan
  | .bool b => .fin (if b then 1 else 0)
  | .str s => strToNumber s
  | .arr xs => strToNumber (jsToString (.arr xs))
  | .obj fs => strToNumber (jsToString (.obj fs))

/-- `Array.isArray(v) ? v : []`, the defensive default used throughout
`widget.js`. -/
def asArray (v : JValue) : List JValue :=
  match v with
  | .arr xs => xs
  | _ => []

/-- `Array.isArray(v) && v.length > 0`. -/
def isNonEmptyArray (v : JValue) : Bool :=
  match v with
  | .arr (_ :: _) => true
  | _ => false

/-- JavaScript `a || b`: the first operand when truthy, otherwise the
second. -/
def jsOr (a b : JValue) : JValue :=
  if truthy a then a else b

/-- `values` field of the payload, line 47 of `widget.js`:
`Array.isArray(payload?.values) ? payload.values : []`. -/
def valuesOf (payload : JValue) : List JValue :=
  asArray (getField payload "values")

/-- `options` of one entry, line 52 of `widget.js`:
`Array.isArray(entry?.options) ? entry.options : []`. -/
def optionsOf (entry : JValue) : List JValue :=
  asArray (getField entry "options")

/-- The shape produced by `normalisePayload` for one retained entry.  The
`aggregated` JavaScript object is modelled as an association list holding
the object's internal store in property-insertion order.  The enumeration
order that `Object.keys` observes is not the store order for every key:
ECMAScript enumerates integer-index keys in ascending numeric order
before the remaining string keys; that reordering is modelled separately
by `ownKeys`. -/
structure QuestionRecord where
  id : JValue
  label : JValue
  aggregated : List (String × JNum)

/-- Property assignment `map[k] = v` on the model object's store:
overwrite the binding in place when the key exists, append otherwise.
This is the insertion-ordered store only; the enumeration-time
reordering of integer-index keys is `ownKeys`. -/
def setKey : List (String × JNum) → String → JNum → List (String × JNum)
  | [], k, v => [(k, v)]
  | p :: rest, k, v =>
      if p.1 == k then (k, v) :: rest else p :: setKey rest k v

/-- Lines 57-58 of `widget.js`:
`const count = Number(option?.count ?? 0);` stored as
`Number.isFinite(count) ? count : 0`. -/
def storedCount (option : JValue) : JNum :=
  let count := toNumber (nullish (getField option "count") (JValue.num (JNum.fin 0)))
  if count.isFinite then count else JNum.fin 0

/-- The count parsed as a number (before the finiteness default):
`Number(option?.count ?? 0)`. -/
def parsedCount (option : JValue) : JNum :=
  toNumber (nullish (getField option "count") (JValue.num (JNum.fin 0)))

/-- Lines 53-60 of `widget.js`: filter the options to those with a truthy
`id` and reduce them into the `aggregated` object.  JavaScript coerces
property keys to strings, hence the `jsToString` on the option id. -/
def aggregateOptions (options : List JValue) : List (String × JNum) :=
  (options.filter (fun option => truthy (getField option "id"))).foldl
    (fun map option =>
      setKey map (jsToString (getField option "id")) (storedCount option)) []

/-- Lines 46-68 of `widget.js`: `normalisePayload`. -/
def normalisePayload (payload : JValue) : List QuestionRecord :=
  ((valuesOf payload).filter (fun entry => truthy (getField entry "id"))).map
    (fun entry =>
      let id := getField entry "id"
      { id := id
        label := jsOr (jsOr (getField entry "label") (getField entry "title")) id
        aggregated := aggregateOptions (optionsOf entry) })

/-- Lines 74-85 of `widget.js`: the default 10-colour Plotly colourway. -/
def DEFAULT_COLORWAY : List String :=
  ["#1f77b4", "#ff7f0e", "#2ca02c", "#d62728", "#9467bd",
   "#8c564b", "#e377c2", "#7f7f7f", "#bcbd22", "#17becf"]

/-- Lines 99-102 of `widget.js`: the source colour list, the override
when it is a non-empty array, the default colourway otherwise. -/
def sourcePalette (overrideColors : JValue) : List JValue :=
  match overrideColors with
  | .arr (x :: xs) => x :: xs
  | _ => DEFAULT_COLORWAY.map JValue.str

/-- Lines 94-109 of `widget.js`: `buildPalette`.  The loop
`for (index = 0; index < size; ...) palette.push(source[index % source.length])`
is rendered as a map over the index range. -/
def buildPalette (size : Int) (overrideColors : JValue) : List JValue :=
  if size ≤ 0 then []
  else
    let source := sourcePalette overrideColors
    (List.range size.toNat).map
      (fun index => source.getD (index % source.length) JValue.undefined)

/-- Line 6 of `widget.js`. -/
def DEFAULT_BASE_URL : String := "https://tmd.elixir-europe.org/metrics"

/-- A parsed URL, reduced to what `buildRequestUrl` manipulates: the part
before the query string (scheme, host and path, treated opaquely) and the
ordered query-parameter list.  Percent-encoding and fragments are outside
the model. -/
structure ParsedURL where
  head : String
  params : List (String × String)

/-- Split a character list at the first occurrence of `target`; the
second component is `none` when the character does not occur. -/
def splitAtChar (target : Char) (cs : List Char) : List Char × Option (List Char) :=
  match cs with
  | [] => ([], none)
  | c :: rest =>
      if c == target then ([], some rest)
      else
        let (a, b) := splitAtChar target rest
        (c :: a, b)

/-- Split a character list on every occurrence of `sep`. -/
def splitOnChar (sep : Char) (cs : List Char) : List (List Char) :=
  match cs with
  | [] => [[]]
  | c :: rest =>
      if c == sep then [] :: splitOnChar sep rest
      else
        match splitOnChar sep rest with
        | [] => [[c]]
        | g :: gs => (c :: g) :: gs

/-- Scheme continuation characters followed by a colon. -/
def hasSchemeAux : List Char → Bool
  | [] => false
  | c :: rest =>
      if c == Char.ofNat 58 then true
      else if c.isAlphanum || c == Char.ofNat 43 || c == Char.ofNat 45
          || c == Char.ofNat 46 then hasSchemeAux rest
      else false

/-- Does the string begin with a URL scheme (`alpha (alnum|+|-|.)* :`)? -/
def hasScheme (cs : List Char) : Bool :=
  match cs with
  | [] => false
  | c :: rest => c.isAlpha && hasSchemeAux rest

/-- Parse a raw query string into the ordered parameter list: segments
split on `&`, empty segments skipped, each segment split at the first
`=` (a missing `=` yields an empty value). -/
def parseQuery (cs : List Char) : List (String × String) :=
  (splitOnChar (Char.ofNat 38) cs).filterMap
    (fun seg =>
      if seg.isEmpty then none
      else
        let (k, v) := splitAtChar (Char.ofNat 61) seg
        some (String.mk k, String.mk (v.getD [])))

/-- Model of parsing an absolute URL: the string must begin with a
scheme; the fragment is discarded and the query split off.  The part
before the query is kept opaquely (host/path normalisation is outside
the model). -/
def parseAbsolute (s : String) : Option ParsedURL :=
  let noFrag := (splitAtChar (Char.ofNat 35) s.data).1
  if hasScheme noFrag then
    let (h, q) := splitAtChar (Char.ofNat 63) noFrag
    some { head := String.mk h, params := parseQuery (q.getD []) }
  else none

/-- Resolve a relative reference against a parsed origin (the origin has
no path of its own, so the reference becomes the path). -/
def resolveAgainst (origin : ParsedURL) (rel : String) : ParsedURL :=
  let noFrag := (splitAtChar (Char.ofNat 35) rel.data).1
  let (p, q) := splitAtChar (Char.ofNat 63) noFrag
  let path := if startsWithChars p [Char.ofNat 47] then String.mk p
    else "/" ++ String.mk p
  { head := origin.head ++ path, params := parseQuery (q.getD []) }

/-- Model of line 118 of `widget.js`:
`new URL(base, base.startsWith("http") ? undefined : global.location?.origin)`.
With no base argument the string must be absolute; with a base argument
the base is parsed first (failure propagates), and the input is taken
absolute when possible, resolved against the base otherwise.  `none`
models the constructor throwing. -/
def parseURL (base : String) (origin : Option String) : Option ParsedURL :=
  if startsWithChars base.data "http".data then parseAbsolute base
  else
    match origin with
    | none => parseAbsolute base
    | some o =>
      match parseAbsolute o with
      | none => none
      | some ou =>
        match parseAbsolute base with
        | some u => some u
        | none => some (resolveAgainst ou base)

/-- First value carried under the key, `searchParams.get`-style. -/
def lookupKey {α : Type} (ps : List (String × α)) (k : String) : Option α :=
  (ps.find? (fun p => p.1 == k)).map Prod.snd

/-- `searchParams.has(k)`. -/
def hasParam (ps : List (String × String)) (k : String) : Bool :=
  ps.any (fun p => p.1 == k)

/-- `searchParams.set(k, v)`: replace the value of the first parameter
with that name and remove any further ones, or append when absent. -/
def setParam : List (String × String) → String → String → List (String × String)
  | [], k, v => [(k, v)]
  | p :: rest, k, v =>
      if p.1 == k then (k, v) :: rest.filter (fun q => q.1 != k)
      else p :: setParam rest k v

/-- The fields of the settings object read by `buildRequestUrl`; each is
an arbitrary JavaScript value, the builder itself type-checks them. -/
structure Settings where
  questionSets : JValue
  questions : JValue
  dataScope : JValue
  endpoint : JValue

/-- Line 123 of `widget.js`:
`Array.isArray(settings.questionSets) && settings.questionSets.length > 0`. -/
def hasQuestionSets (settings : Settings) : Bool :=
  isNonEmptyArray settings.questionSets

/-- Line 124 of `widget.js`. -/
def hasQuestionsFilter (settings : Settings) : Bool :=
  isNonEmptyArray settings.questions

/-- `xs.join(",")`. -/
def joinComma (xs : List JValue) : String :=
  String.intercalate "," (jsArrayElems xs)

/-- Lines 127-131 of `widget.js`: the filter-precedence block. -/
def applyFilterParams (settings : Settings) (ps : List (String × String)) :
    List (String × String) :=
  if hasQuestionSets settings then
    setParam ps "question_sets" (joinComma (asArray settings.questionSets))
  else if hasQuestionsFilter settings then
    setParam ps "questions" (joinComma (asArray settings.questions))
  else ps

/-- Lines 135-137 of `widget.js`: the data-scope block
(`searchParams.set` stringifies its value). -/
def applyScopeParam (settings : Settings) (ps : List (String × String)) :
    List (String × String) :=
  if truthy settings.dataScope && !hasParam ps "data_scope" then
    setParam ps "data_scope" (jsToString settings.dataScope)
  else ps

/-- The two query-parameter mutations of `buildRequestUrl` in order. -/
def applyParams (settings : Settings) (u : ParsedURL) : ParsedURL :=
  { u with params := applyScopeParam settings (applyFilterParams settings u.params) }

/-- One serialized query parameter (percent-encoding not modelled). -/
def serializeParam (p : String × String) : String :=
  p.1 ++ "=" ++ p.2

/-- `url.toString()` in the model: the head, plus the query when there
are parameters. -/
def serializeURL (u : ParsedURL) : String :=
  match u.params with
  | [] => u.head
  | _ => u.head ++ "?" ++ String.intercalate "&" (u.params.map serializeParam)

/-- Line 114 of `widget.js`: `settings.endpoint || DEFAULT_BASE_URL`. -/
def baseOf (settings : Settings) : JValue :=
  jsOr settings.endpoint (JValue.str DEFAULT_BASE_URL)

/-- Whether evaluating
`new URL(base, base.startsWith("http") ? undefined : origin)` throws: it
does when the base is not a string (`startsWith` is not a function) or
when the URL constructor rejects the strings.  Both are inside the `try`
of lines 117-121. -/
def urlCtorFails (base : JValue) (origin : Option String) : Bool :=
  match base with
  | .str s => (parseURL s origin).isNone
  | _ => true

/-- Lines 113-140 of `widget.js`: `buildRequestUrl`.  The ambient
`global.location?.origin` is passed explicitly; the result is the raw
base value when URL construction fails (the `catch` branch), the
serialized URL otherwise. -/
def buildRequestUrl (origin : Option String) (settings : Settings) : JValue :=
  let base := baseOf settings
  match base with
  | .str s =>
    match parseURL s origin with
    | none => base
    | some u => JValue.str (serializeURL (applyParams settings u))
  | _ => base

/-- Is the value an array?  (`Array.isArray`.) -/
def isArrayValue : JValue → Bool
  | .arr _ => true
  | _ => false

/-- Spec-side definition, following the spec words "preserving first-seen
order of option ids": append a key unless it was already seen. -/
def insertFirstSeen (acc : List String) (k : String) : List String :=
  if acc.contains k then acc else acc ++ [k]

/-- Spec-side definition: the keys of a write sequence in first-seen
order. -/
def specFirstSeenKeys (ks : List String) : List String :=
  ks.foldl insertFirstSeen []

/-- Spec-side definition, following the spec words "the later occurrence
overwrites the earlier one (last-write-wins)": the value of the last
write under a key, if any. -/
def specLastWrite (k : String) : List (String × JNum) → Option JNum
  | [] => none
  | w :: ws =>
      match specLastWrite k ws with
      | some v => some v
      | none => if w.1 == k then some w.2 else none

/-- The (key, stored count) writes that an options list performs on the
`aggregated` object, in source order. -/
def optionWrites (options : List JValue) : List (String × JNum) :=
  (options.filter (fun option => truthy (getField option "id"))).map
    (fun option => (jsToString (getField option "id"), storedCount option))

/-- Is the string an ECMAScript integer-index key: a canonical numeric
string (digits only, no leading zero except `"0"` itself) whose value is
below `2^32 - 1`?  Such keys enumerate in ascending numeric order before
all other string keys. -/
def isArrayIndex (s : String) : Bool :=
  match s.data with
  | [] => false
  | c :: rest =>
      c.isDigit && rest.all Char.isDigit
        && (c != Char.ofNat 48 || rest.isEmpty)
        && decide (natOfDigits (c :: rest) < 4294967295)

/-- Insert a key into a list sorted by ascending numeric value
(insertion step of the sort used for integer-index keys). -/
def insertByVal (k : String) : List String → List String
  | [] => [k]
  | x :: xs =>
      if natOfDigits k.data ≤ natOfDigits x.data then k :: x :: xs
      else x :: insertByVal k xs

/-- Sort keys by ascending numeric value (insertion sort; the keys fed
in are canonical numeric strings, on which numeric order is total). -/
def sortByNumericValue (ks : List String) : List String :=
  ks.foldr insertByVal []

/-- Model of ECMAScript `OrdinaryOwnPropertyKeys` restricted to string
keys, the order `Object.keys` observes on the `aggregated` object:
integer-index keys in ascending numeric order first, then the remaining
keys in insertion (store) order. -/
def ownKeys (m : List (String × JNum)) : List String :=
  sortByNumericValue ((m.map Prod.fst).filter (fun k => isArrayIndex k))
    ++ (m.map Prod.fst).filter (fun k => !isArrayIndex k)

theorem beq_swap {α : Type} [BEq α] [LawfulBEq α] (a b : α) : (a == b) = (b == a) := by
  by_cases h : a = b
  · subst h; rfl
  · rw [beq_eq_false_iff_ne.mpr h, beq_eq_false_iff_ne.mpr (Ne.symm h)]

theorem lookupKey_cons {α : Type} (p : String × α) (ps : List (String × α)) (k : String) :
    lookupKey (p :: ps) k = if p.1 == k then some p.2 else lookupKey ps k := by
  cases h : p.1 == k <;> simp [lookupKey, List.find?_cons, h]

theorem lookupKey_nil {α : Type} (k : String) :
    lookupKey ([] : List (String × α)) k = none := rfl

theorem lookupKey_filter_ne {α : Type} (ps : List (String × α)) (k k2 : String)
    (h : k2 ≠ k) :
    lookupKey (ps.filter (fun q => q.1 != k)) k2 = lookupKey ps k2 := by
  induction ps with
  | nil => rfl
  | cons p rest ih =>
      rw [List.filter_cons]
      by_cases hp : p.1 = k
      · have hpk2 : p.1 ≠ k2 := by rw [hp]; exact Ne.symm h
        simp [hp, lookupKey_cons, beq_eq_false_iff_ne.mpr hpk2, Ne.symm h, ih]
      · simp [bne_iff_ne.mpr hp, lookupKey_cons, ih]

theorem lookupKey_setKey (m : List (String × JNum)) (k k2 : String) (v : JNum) :
    lookupKey (setKey m k v) k2 = if k2 == k then some v else lookupKey m k2 := by
  induction m with
  | nil =>
      by_cases h : k2 = k
      · subst h; simp [setKey, lookupKey_cons]
      · simp [setKey, lookupKey_cons, beq_eq_false_iff_ne.mpr h,
          beq_eq_false_iff_ne.mpr (Ne.symm h), lookupKey_nil]
  | cons p rest ih =>
      by_cases hp : p.1 = k
      · have hstep : setKey (p :: rest) k v = (k, v) :: rest := by
          rw [setKey, if_pos (by simp [hp])]
        by_cases h2 : k2 = k
        · subst h2
          simp [hstep, lookupKey_cons]
        · have hpk2 : p.1 ≠ k2 := by rw [hp]; exact Ne.symm h2
          simp [hstep, lookupKey_cons, beq_eq_false_iff_ne.mpr h2,
            beq_eq_false_iff_ne.mpr (Ne.symm h2), beq_eq_false_iff_ne.mpr hpk2]
      · have hstep : setKey (p :: rest) k v = p :: setKey rest k v := by
          rw [setKey, if_neg (by simp [hp])]
        by_cases h2 : k2 = k
        · subst h2
          simp [hstep, lookupKey_cons, beq_eq_false_iff_ne.mpr hp, ih]
        · by_cases h3 : p.1 = k2 <;>
            simp [hstep, lookupKey_cons, beq_eq_false_iff_ne.mpr h2, h3, ih]


theorem keys_setKey (m : List (String × JNum)) (k : String) (v : JNum) :
    (setKey m k v).map Prod.fst = insertFirstSeen (m.map Prod.fst) k := by
  induction m with
  | nil => rfl
  | cons p rest ih =>
      by_cases hp : p.1 = k
      · rw [setKey, if_pos (by simp [hp])]
        simp [insertFirstSeen, List.contains_cons, hp]
      · rw [setKey, if_neg (by simp [hp]), List.map_cons, List.map_cons, ih,
          insertFirstSeen, insertFirstSeen, List.contains_cons,
          beq_eq_false_iff_ne.mpr (Ne.symm hp)]
        cases hk : (rest.map Prod.fst).contains k <;> simp [hk]

theorem foldl_setKey_keys (ws : List (String × JNum)) :
    ∀ m : List (String × JNum),
      (ws.foldl (fun m w => setKey m w.1 w.2) m).map Prod.fst
        = ws.foldl (fun acc w => insertFirstSeen acc w.1) (m.map Prod.fst) := by
  induction ws with
  | nil => intro m; rfl
  | cons w ws ih =>
      intro m
      rw [List.foldl_cons, List.foldl_cons, ih, keys_setKey]

theorem foldl_setKey_lookup (ws : List (String × JNum)) (k2 : String) :
    ∀ m, lookupKey (ws.foldl (fun m w => setKey m w.1 w.2) m) k2
      = match specLastWrite k2 ws with
        | some v => some v
        | none => lookupKey m k2 := by
  induction ws with
  | nil => intro m; rfl
  | cons w ws ih =>
      intro m
      rw [List.foldl_cons, ih, specLastWrite]
      cases h : specLastWrite k2 ws with
      | some v => simp
      | none =>
          by_cases hk : k2 = w.1
          · subst hk
            simp [lookupKey_setKey]
          · simp [lookupKey_setKey, beq_eq_false_iff_ne.mpr hk,
              beq_eq_false_iff_ne.mpr (Ne.symm hk)]

theorem aggregateOptions_eq_foldl (options : List JValue) :
    aggregateOptions options
      = (optionWrites options).foldl (fun m w => setKey m w.1 w.2) [] := by
  rw [aggregateOptions, optionWrites, List.foldl_map]

theorem aggregate_keys (options : List JValue) :
    (aggregateOptions options).map Prod.fst
      = specFirstSeenKeys ((optionWrites options).map Prod.fst) := by
  rw [aggregateOptions_eq_foldl, foldl_setKey_keys, specFirstSeenKeys, List.foldl_map]
  rfl

theorem aggregate_lookup (options : List JValue) (k : String) :
    lookupKey (aggregateOptions options) k = specLastWrite k (optionWrites options) := by
  rw [aggregateOptions_eq_foldl, foldl_setKey_lookup]
  cases h : specLastWrite k (optionWrites options) <;> simp [lookupKey_nil]

theorem mem_setKey (m : List (String × JNum)) (k : String) (v : JNum)
    (kv : String × JNum) (h : kv ∈ setKey m k v) : kv = (k, v) ∨ kv ∈ m := by
  induction m with
  | nil =>
      left
      simpa [setKey] using h
  | cons p rest ih =>
      by_cases hp : p.1 = k
      · rw [setKey, if_pos (by simp [hp])] at h
        rcases List.mem_cons.mp h with h1 | h2
        · exact Or.inl h1
        · exact Or.inr (List.mem_cons.mpr (Or.inr h2))
      · rw [setKey, if_neg (by simp [hp])] at h
        rcases List.mem_cons.mp h with h1 | h2
        · exact Or.inr (List.mem_cons.mpr (Or.inl h1))
        · rcases ih h2 with h3 | h4
          · exact Or.inl h3
          · exact Or.inr (List.mem_cons.mpr (Or.inr h4))

theorem mem_foldl_setKey (ws : List (String × JNum)) :
    ∀ m kv, kv ∈ ws.foldl (fun m w => setKey m w.1 w.2) m → kv ∈ m ∨ kv ∈ ws := by
  induction ws with
  | nil => intro m kv h; exact Or.inl h
  | cons w ws ih =>
      intro m kv h
      rw [List.foldl_cons] at h
      rcases ih _ kv h with h1 | h2
      · rcases mem_setKey _ _ _ _ h1 with h3 | h4
        · right
          rw [h3, Prod.mk.eta]
          exact List.mem_cons_self w ws
        · exact Or.inl h4
      · exact Or.inr (List.mem_cons.mpr (Or.inr h2))

theorem mem_aggregateOptions (options : List JValue) (kv : String × JNum)
    (h : kv ∈ aggregateOptions options) : kv ∈ optionWrites options := by
  rw [aggregateOptions_eq_foldl] at h
  rcases mem_foldl_setKey _ _ _ h with h1 | h2
  · exact absurd h1 (List.not_mem_nil kv)
  · exact h2

theorem storedCount_isFinite (option : JValue) :
    (storedCount option).isFinite = true := by
  simp only [storedCount]
  split
  · assumption
  · rfl

theorem storedCount_of_finite (option : JValue)
    (h : (parsedCount option).isFinite = true) :
    storedCount option = parsedCount option := by
  simp only [parsedCount] at h
  simp only [storedCount, parsedCount]
  rw [if_pos h]

theorem storedCount_of_nonfinite (option : JValue)
    (h : (parsedCount option).isFinite = false) :
    storedCount option = JNum.fin 0 := by
  simp only [parsedCount] at h
  simp only [storedCount]
  rw [if_neg (by simp [h])]

theorem storedCount_of_absent (option : JValue)
    (h : getField option "count" = JValue.undefined) :
    storedCount option = JNum.fin 0 := by
  simp [storedCount, h, nullish, toNumber, JNum.isFinite]

theorem hasParam_cons (p : String × String) (ps : List (String × String)) (k : String) :
    hasParam (p :: ps) k = ((p.1 == k) || hasParam ps k) := rfl

theorem hasParam_eq_isSome (ps : List (String × String)) (k : String) :
    hasParam ps k = (lookupKey ps k).isSome := by
  induction ps with
  | nil => rfl
  | cons p rest ih =>
      rw [hasParam_cons, lookupKey_cons]
      cases h : p.1 == k <;> simp [h, ih]

theorem lookupKey_setParam (ps : List (String × String)) (k k2 v : String) :
    lookupKey (setParam ps k v) k2 = if k2 == k then some v else lookupKey ps k2 := by
  induction ps with
  | nil =>
      by_cases h : k2 = k
      · subst h; simp [setParam, lookupKey_cons]
      · simp [setParam, lookupKey_cons, beq_eq_false_iff_ne.mpr h,
          beq_eq_false_iff_ne.mpr (Ne.symm h), lookupKey_nil]
  | cons p rest ih =>
      by_cases hp : p.1 = k
      · have hstep : setParam (p :: rest) k v
            = (k, v) :: rest.filter (fun q => q.1 != k) := by
          rw [setParam, if_pos (by simp [hp])]
        by_cases h2 : k2 = k
        · subst h2; simp [hstep, lookupKey_cons]
        · have hpk2 : p.1 ≠ k2 := by rw [hp]; exact Ne.symm h2
          rw [hstep, lookupKey_cons, lookupKey_cons]
          simp [beq_eq_false_iff_ne.mpr (Ne.symm h2), h2,
            beq_eq_false_iff_ne.mpr hpk2, lookupKey_filter_ne rest k k2 h2]
      · have hstep : setParam (p :: rest) k v = p :: setParam rest k v := by
          rw [setParam, if_neg (by simp [hp])]
        by_cases h2 : k2 = k
        · subst h2; simp [hstep, lookupKey_cons, beq_eq_false_iff_ne.mpr hp, ih]
        · by_cases h3 : p.1 = k2 <;>
            simp [hstep, lookupKey_cons, beq_eq_false_iff_ne.mpr h2, h3, ih]

theorem filterParams_lookup_other (settings : Settings) (ps : List (String × String))
    (k : String) (h1 : k ≠ "question_sets") (h2 : k ≠ "questions") :
    lookupKey (applyFilterParams settings ps) k = lookupKey ps k := by
  rw [applyFilterParams]
  split
  · rw [lookupKey_setParam, if_neg (by simp [h1])]
  · split
    · rw [lookupKey_setParam, if_neg (by simp [h2])]
    · rfl

theorem scopeParam_lookup_other (settings : Settings) (ps : List (String × String))
    (k : String) (h : k ≠ "data_scope") :
    lookupKey (applyScopeParam settings ps) k = lookupKey ps k := by
  rw [applyScopeParam]
  split
  · rw [lookupKey_setParam, if_neg (by simp [h])]
  · rfl

theorem buildRequestUrl_parsed (settings : Settings) (origin : Option String)
    (b : String) (u : ParsedURL)
    (hbase : baseOf settings = JValue.str b) (hparse : parseURL b origin = some u) :
    buildRequestUrl origin settings = JValue.str (serializeURL (applyParams settings u)) := by
  simp [buildRequestUrl, hbase, hparse]

/-- Claim C1: for every settings object whose base URL parses, the built
request URL sets `question_sets` to the comma-joined `questionSets` and
leaves `questions` untouched whenever `questionSets` is a non-empty
array — even when `questions` is also non-empty; when only `questions`
is a non-empty array it sets `questions` to its comma-joined elements;
and when both are empty or absent it sets neither parameter. -/
theorem c1_filter_precedence (settings : Settings) (origin : Option String)
    (b : String) (u : ParsedURL)
    (hbase : baseOf settings = JValue.str b) (hparse : parseURL b origin = some u) :
    buildRequestUrl origin settings = JValue.str (serializeURL (applyParams settings u))
    ∧ (hasQuestionSets settings = true →
        lookupKey (applyParams settings u).params "question_sets"
            = some (joinComma (asArray settings.questionSets))
          ∧ lookupKey (applyParams settings u).params "questions"
            = lookupKey u.params "questions")
    ∧ (hasQuestionSets settings = false → hasQuestionsFilter settings = true →
        lookupKey (applyParams settings u).params "questions"
            = some (joinComma (asArray settings.questions))
          ∧ lookupKey (applyParams settings u).params "question_sets"
            = lookupKey u.params "question_sets")
    ∧ (hasQuestionSets settings = false → hasQuestionsFilter settings = false →
        lookupKey (applyParams settings u).params "question_sets"
            = lookupKey u.params "question_sets"
          ∧ lookupKey (applyParams settings u).params "questions"
            = lookupKey u.params "questions") := by
  refine ⟨buildRequestUrl_parsed settings origin b u hbase hparse, ?_, ?_, ?_⟩
  · intro hqs
    constructor
    · simp only [applyParams]
      rw [scopeParam_lookup_other _ _ _ (by decide), applyFilterParams, if_pos hqs,
        lookupKey_setParam, if_pos (by simp)]
    · simp only [applyParams]
      rw [scopeParam_lookup_other _ _ _ (by decide), applyFilterParams, if_pos hqs,
        lookupKey_setParam, if_neg (by decide)]
  · intro h1 h2
    constructor
    · simp only [applyParams]
      rw [scopeParam_lookup_other _ _ _ (by decide), applyFilterParams,
        if_neg (by simp [h1]), if_pos h2, lookupKey_setParam, if_pos (by simp)]
    · simp only [applyParams]
      rw [scopeParam_lookup_other _ _ _ (by decide), applyFilterParams,
        if_neg (by simp [h1]), if_pos h2, lookupKey_setParam, if_neg (by decide)]
  · intro h1 h2
    constructor <;>
      · simp only [applyParams]
        rw [applyFilterParams, if_neg (by simp [h1]), if_neg (by simp [h2]),
          scopeParam_lookup_other _ _ _ (by decide)]

theorem c1_witness :
    lookupKey (applyParams
        ⟨JValue.arr [JValue.str "s1"], JValue.arr [JValue.str "q1"],
          JValue.str "all", JValue.null⟩
        ⟨"https://tmd.elixir-europe.org/metrics", []⟩).params "question_sets"
      = some "s1"
    ∧ lookupKey (applyParams
        ⟨JValue.arr [JValue.str "s1"], JValue.arr [JValue.str "q1"],
          JValue.str "all", JValue.null⟩
        ⟨"https://tmd.elixir-europe.org/metrics", []⟩).params "questions"
      = none := by
  have h := c1_filter_precedence
    ⟨JValue.arr [JValue.str "s1"], JValue.arr [JValue.str "q1"],
      JValue.str "all", JValue.null⟩
    none "https://tmd.elixir-europe.org/metrics"
    ⟨"https://tmd.elixir-europe.org/metrics", []⟩ rfl rfl
  exact ⟨((h.2.1 rfl).1).trans rfl, (h.2.1 rfl).2⟩

/-- Claim C7: `buildRequestUrl` is total, and whenever constructing a URL
from the base value fails for any reason (the base is not a string, or
the URL constructor rejects it), the raw base value is returned
unchanged. -/
theorem c7_fallback_on_failure (settings : Settings) (origin : Option String)
    (h : urlCtorFails (baseOf settings) origin = true) :
    buildRequestUrl origin settings = baseOf settings := by
  cases hb : baseOf settings <;>
    simp_all [buildRequestUrl, urlCtorFails, Option.isNone_iff_eq_none]

theorem c7_witness :
    buildRequestUrl none
        ⟨JValue.null, JValue.null, JValue.str "all", JValue.str "not a url"⟩
      = JValue.str "not a url" :=
  c7_fallback_on_failure
    ⟨JValue.null, JValue.null, JValue.str "all", JValue.str "not a url"⟩ none rfl

/-- Claim C8: for every settings object whose base URL parses, the
builder sets `data_scope` to the stringified `settings.dataScope`
exactly when `dataScope` is truthy and the URL built so far does not
already carry a `data_scope` parameter; carrying one is equivalent to
the base URL having encoded one (the filter step never adds it), and an
endpoint-encoded `data_scope` value is preserved unchanged. -/
theorem c8_data_scope (settings : Settings) (origin : Option String)
    (b : String) (u : ParsedURL)
    (hbase : baseOf settings = JValue.str b) (hparse : parseURL b origin = some u) :
    buildRequestUrl origin settings = JValue.str (serializeURL (applyParams settings u))
    ∧ hasParam (applyFilterParams settings u.params) "data_scope"
        = hasParam u.params "data_scope"
    ∧ (truthy settings.dataScope = true → hasParam u.params "data_scope" = false →
        lookupKey (applyParams settings u).params "data_scope"
          = some (jsToString settings.dataScope))
    ∧ (hasParam u.params "data_scope" = true →
        lookupKey (applyParams settings u).params "data_scope"
          = lookupKey u.params "data_scope")
    ∧ (truthy settings.dataScope = false →
        lookupKey (applyParams settings u).params "data_scope"
          = lookupKey u.params "data_scope") := by
  have hsame : hasParam (applyFilterParams settings u.params) "data_scope"
      = hasParam u.params "data_scope" := by
    rw [hasParam_eq_isSome, hasParam_eq_isSome,
      filterParams_lookup_other _ _ _ (by decide) (by decide)]
  refine ⟨buildRequestUrl_parsed settings origin b u hbase hparse, hsame, ?_, ?_, ?_⟩
  · intro ht hnot
    simp only [applyParams, applyScopeParam]
    rw [if_pos (by rw [hsame, hnot, ht]; rfl), lookupKey_setParam, if_pos (by simp)]
  · intro hhas
    simp only [applyParams, applyScopeParam]
    rw [if_neg (by rw [hsame, hhas]; simp),
      filterParams_lookup_other _ _ _ (by decide) (by decide)]
  · intro ht
    simp only [applyParams, applyScopeParam]
    rw [if_neg (by rw [ht]; simp),
      filterParams_lookup_other _ _ _ (by decide) (by decide)]

theorem c8_witness :
    lookupKey (applyParams
        ⟨JValue.null, JValue.null, JValue.str "all",
          JValue.str "https://h/x?data_scope=node"⟩
        ⟨"https://h/x", [("data_scope", "node")]⟩).params "data_scope"
      = some "node" := by
  have h := c8_data_scope
    ⟨JValue.null, JValue.null, JValue.str "all",
      JValue.str "https://h/x?data_scope=node"⟩
    none "https://h/x?data_scope=node" ⟨"https://h/x", [("data_scope", "node")]⟩
    rfl rfl
  exact (h.2.2.2.1 rfl).trans rfl

/-- Claim C10: for every settings object whose base URL parses — in
particular when the endpoint itself encoded a `question_sets` or
`questions` parameter — the builder overwrites that parameter with the
comma-joined settings filter whenever the corresponding filter
(`questionSets`, or else `questions`) is a non-empty array; when both
settings filters are empty or absent, the endpoint-encoded filter
parameters are left unchanged in the result. -/
theorem c10_endpoint_filter_overwrite (settings : Settings) (origin : Option String)
    (b : String) (u : ParsedURL) (w : String)
    (hbase : baseOf settings = JValue.str b) (hparse : parseURL b origin = some u) :
    buildRequestUrl origin settings = JValue.str (serializeURL (applyParams settings u))
    ∧ (hasQuestionSets settings = true →
        lookupKey u.params "question_sets" = some w →
        lookupKey (applyParams settings u).params "question_sets"
          = some (joinComma (asArray settings.questionSets)))
    ∧ (hasQuestionSets settings = false → hasQuestionsFilter settings = true →
        lookupKey u.params "questions" = some w →
        lookupKey (applyParams settings u).params "questions"
          = some (joinComma (asArray settings.questions)))
    ∧ (hasQuestionSets settings = false → hasQuestionsFilter settings = false →
        lookupKey (applyParams settings u).params "question_sets"
            = lookupKey u.params "question_sets"
          ∧ lookupKey (applyParams settings u).params "questions"
            = lookupKey u.params "questions") := by
  refine ⟨buildRequestUrl_parsed settings origin b u hbase hparse, ?_, ?_, ?_⟩
  · intro hqs _
    simp only [applyParams]
    rw [scopeParam_lookup_other _ _ _ (by decide), applyFilterParams, if_pos hqs,
      lookupKey_setParam, if_pos (by simp)]
  · intro h1 h2 _
    simp only [applyParams]
    rw [scopeParam_lookup_other _ _ _ (by decide), applyFilterParams,
      if_neg (by simp [h1]), if_pos h2, lookupKey_setParam, if_pos (by simp)]
  · intro h1 h2
    constructor <;>
      · simp only [applyParams]
        rw [applyFilterParams, if_neg (by simp [h1]), if_neg (by simp [h2]),
          scopeParam_lookup_other _ _ _ (by decide)]

theorem c10_witness :
    lookupKey (applyParams
        ⟨JValue.arr [JValue.str "s1"], JValue.null, JValue.str "all",
          JValue.str "https://h/x?question_sets=old"⟩
        ⟨"https://h/x", [("question_sets", "old")]⟩).params "question_sets"
      = some "s1" := by
  have h := c10_endpoint_filter_overwrite
    ⟨JValue.arr [JValue.str "s1"], JValue.null, JValue.str "all",
      JValue.str "https://h/x?question_sets=old"⟩
    none "https://h/x?question_sets=old" ⟨"https://h/x", [("question_sets", "old")]⟩
    "old" rfl rfl
  exact (h.2.1 rfl rfl).trans rfl

theorem asArray_eq_nil (v : JValue) (h : isArrayValue v = false) : asArray v = [] := by
  cases v <;> simp_all [isArrayValue, asArray]

theorem specLastWrite_mem (k : String) (ws : List (String × JNum)) (v : JNum)
    (h : specLastWrite k ws = some v) : (k, v) ∈ ws := by
  induction ws with
  | nil => simp [specLastWrite] at h
  | cons w ws ih =>
      rw [specLastWrite] at h
      cases hs : specLastWrite k ws with
      | some v2 =>
          rw [hs] at h
          injection h with hv
          subst hv
          exact List.mem_cons.mpr (Or.inr (ih hs))
      | none =>
          rw [hs] at h
          by_cases hw : w.1 = k
          · rw [if_pos (by simp [hw])] at h
            injection h with hv
            subst hv
            have : (k, w.2) = w := by rw [← hw, Prod.mk.eta]
            rw [this]
            exact List.mem_cons_self w ws
          · rw [if_neg (by simp [hw])] at h
            cases h

theorem sourcePalette_length_pos (v : JValue) : 0 < (sourcePalette v).length := by
  rcases v with _ | _ | b | n | s | elems | fields
  · simp [sourcePalette, DEFAULT_COLORWAY]
  · simp [sourcePalette, DEFAULT_COLORWAY]
  · simp [sourcePalette, DEFAULT_COLORWAY]
  · simp [sourcePalette, DEFAULT_COLORWAY]
  · simp [sourcePalette, DEFAULT_COLORWAY]
  · rcases elems with _ | ⟨x, xs⟩ <;> simp [sourcePalette, DEFAULT_COLORWAY]
  · simp [sourcePalette, DEFAULT_COLORWAY]

/-- Claim C2: `normalisePayload` is a total function returning a list for
every input value of any shape, and whenever `payload.values` is absent
or not an array the result is the empty list. -/
theorem c2_defensive_empty (payload : JValue)
    (h : isArrayValue (getField payload "values") = false) :
    normalisePayload payload = [] := by
  rw [normalisePayload, valuesOf, asArray_eq_nil _ h]
  rfl

theorem c2_witness : normalisePayload (JValue.num (JNum.fin 7)) = [] :=
  c2_defensive_empty (JValue.num (JNum.fin 7)) rfl

/-- Claim C3: `normalisePayload` keeps exactly the entries with a truthy
`id`, in exactly their input order — the output id sequence is the
filtered input id sequence, and every output record has a truthy id. -/
theorem c3_order_and_filter (payload : JValue) :
    (normalisePayload payload).map QuestionRecord.id
        = ((valuesOf payload).filter (fun entry => truthy (getField entry "id"))).map
            (fun entry => getField entry "id")
      ∧ ∀ r ∈ normalisePayload payload, truthy r.id = true := by
  constructor
  · rw [normalisePayload, List.map_map]
    rfl
  · intro r hr
    rw [normalisePayload] at hr
    obtain ⟨entry, he, hre⟩ := List.mem_map.mp hr
    have ht := (List.mem_filter.mp he).2
    rw [← hre]
    exact ht

theorem c3_witness :
    truthy (QuestionRecord.mk (JValue.str "b") (JValue.str "b") []).id = true := by
  have hm : QuestionRecord.mk (JValue.str "b") (JValue.str "b") []
      ∈ normalisePayload (JValue.obj [("values",
          JValue.arr [JValue.obj [("id", JValue.str "b")]])]) := by
    show QuestionRecord.mk (JValue.str "b") (JValue.str "b") []
      ∈ [QuestionRecord.mk (JValue.str "b") (JValue.str "b") []]
    exact List.mem_singleton.mpr rfl
  exact (c3_order_and_filter (JValue.obj [("values",
    JValue.arr [JValue.obj [("id", JValue.str "b")]])])).2 _ hm

theorem mem_insertFirstSeen (acc : List String) (x k : String)
    (h : k ∈ insertFirstSeen acc x) : k ∈ acc ∨ k = x := by
  rw [insertFirstSeen] at h
  by_cases hc : acc.contains x = true
  · rw [if_pos hc] at h
    exact Or.inl h
  · rw [if_neg hc] at h
    rcases List.mem_append.mp h with h1 | h2
    · exact Or.inl h1
    · exact Or.inr (List.mem_singleton.mp h2)

theorem mem_foldl_insertFirstSeen (ks : List String) :
    ∀ acc k, k ∈ ks.foldl insertFirstSeen acc → k ∈ acc ∨ k ∈ ks := by
  induction ks with
  | nil => intro acc k h; exact Or.inl h
  | cons x xs ih =>
      intro acc k h
      rw [List.foldl_cons] at h
      rcases ih _ k h with h1 | h2
      · rcases mem_insertFirstSeen _ _ _ h1 with h3 | h4
        · exact Or.inl h3
        · exact Or.inr (h4 ▸ List.mem_cons_self x xs)
      · exact Or.inr (List.mem_cons.mpr (Or.inr h2))

theorem mem_specFirstSeenKeys (ks : List String) (k : String)
    (h : k ∈ specFirstSeenKeys ks) : k ∈ ks := by
  rcases mem_foldl_insertFirstSeen ks [] k h with h1 | h2
  · exact absurd h1 (List.not_mem_nil k)
  · exact h2

theorem ownKeys_of_no_index (m : List (String × JNum))
    (h : ∀ k ∈ m.map Prod.fst, isArrayIndex k = false) :
    ownKeys m = m.map Prod.fst := by
  rw [ownKeys]
  have h1 : (m.map Prod.fst).filter (fun k => isArrayIndex k) = [] :=
    List.filter_eq_nil_iff.mpr (fun k hk => by simp [h k hk])
  have h2 : (m.map Prod.fst).filter (fun k => !isArrayIndex k) = m.map Prod.fst :=
    List.filter_eq_self.mpr (fun k hk => by simp [h k hk])
  rw [h1, h2]
  rfl

/-- Claim C4 as stated is false on the code: JavaScript enumerates
integer-index object keys in ascending numeric order before other keys,
so an entry with truthy option ids `"1"` then `"0"` yields aggregated
keys enumerated as `["0", "1"]`, not the first-seen `["1", "0"]`. -/
theorem c4_counterexample :
    ∃ r ∈ normalisePayload (JValue.obj [("values", JValue.arr [JValue.obj
        [("id", JValue.str "q"), ("options", JValue.arr [
          JValue.obj [("id", JValue.str "1"), ("count", JValue.num (JNum.fin 5))],
          JValue.obj [("id", JValue.str "0"), ("count", JValue.num (JNum.fin 7))]])]])]),
      specFirstSeenKeys ((optionWrites (optionsOf (JValue.obj
          [("id", JValue.str "q"), ("options", JValue.arr [
            JValue.obj [("id", JValue.str "1"), ("count", JValue.num (JNum.fin 5))],
            JValue.obj [("id", JValue.str "0"), ("count", JValue.num (JNum.fin 7))]])]))).map
              Prod.fst)
          = ["1", "0"]
        ∧ ownKeys r.aggregated = ["0", "1"]
        ∧ ownKeys r.aggregated
            ≠ specFirstSeenKeys ((optionWrites (optionsOf (JValue.obj
                [("id", JValue.str "q"), ("options", JValue.arr [
                  JValue.obj [("id", JValue.str "1"), ("count", JValue.num (JNum.fin 5))],
                  JValue.obj [("id", JValue.str "0"),
                    ("count", JValue.num (JNum.fin 7))]])]))).map Prod.fst) := by
  refine ⟨QuestionRecord.mk (JValue.str "q") (JValue.str "q")
      [("1", JNum.fin 5), ("0", JNum.fin 7)], ?_, rfl, rfl, by decide⟩
  show QuestionRecord.mk (JValue.str "q") (JValue.str "q")
      [("1", JNum.fin 5), ("0", JNum.fin 7)]
    ∈ [QuestionRecord.mk (JValue.str "q") (JValue.str "q")
      [("1", JNum.fin 5), ("0", JNum.fin 7)]]
  exact List.mem_singleton.mpr rfl

/-- Claim C4 amended: for every retained payload entry, the enumerated
keys of its `aggregated` map appear in first-seen order of the entry's
truthy option ids provided none of those ids is an integer-index string
(integer-index keys instead enumerate numerically first), and the count
stored under a repeated option id is the one from the last occurrence
(last-write-wins), unconditionally. -/
theorem c4_first_seen_last_write (payload : JValue) (r : QuestionRecord)
    (hr : r ∈ normalisePayload payload) :
    ∃ entry ∈ valuesOf payload,
      truthy (getField entry "id") = true
      ∧ r.aggregated = aggregateOptions (optionsOf entry)
      ∧ ((∀ k ∈ (optionWrites (optionsOf entry)).map Prod.fst, isArrayIndex k = false) →
          ownKeys r.aggregated
            = specFirstSeenKeys ((optionWrites (optionsOf entry)).map Prod.fst))
      ∧ ∀ k, lookupKey r.aggregated k = specLastWrite k (optionWrites (optionsOf entry)) := by
  rw [normalisePayload] at hr
  obtain ⟨entry, he, hre⟩ := List.mem_map.mp hr
  obtain ⟨hev, het⟩ := List.mem_filter.mp he
  subst hre
  refine ⟨entry, hev, het, rfl, ?_, fun k => aggregate_lookup (optionsOf entry) k⟩
  intro hno
  have hkeys := aggregate_keys (optionsOf entry)
  have hmem : ∀ k ∈ (aggregateOptions (optionsOf entry)).map Prod.fst,
      isArrayIndex k = false := by
    intro k hk
    rw [hkeys] at hk
    exact hno k (mem_specFirstSeenKeys _ _ hk)
  exact (ownKeys_of_no_index _ hmem).trans hkeys

theorem c4_witness :
    ∃ entry ∈ valuesOf (JValue.obj [("values", JValue.arr [JValue.obj
        [("id", JValue.str "q"), ("options", JValue.arr [
          JValue.obj [("id", JValue.str "a"), ("count", JValue.num (JNum.fin 1))],
          JValue.obj [("id", JValue.str "b"), ("count", JValue.num (JNum.fin 2))],
          JValue.obj [("id", JValue.str "a"), ("count", JValue.num (JNum.fin 3))]])]])]),
      truthy (getField entry "id") = true
      ∧ (QuestionRecord.mk (JValue.str "q") (JValue.str "q")
            [("a", JNum.fin 3), ("b", JNum.fin 2)]).aggregated
          = aggregateOptions (optionsOf entry)
      ∧ ((∀ k ∈ (optionWrites (optionsOf entry)).map Prod.fst, isArrayIndex k = false) →
          ownKeys (QuestionRecord.mk (JValue.str "q") (JValue.str "q")
              [("a", JNum.fin 3), ("b", JNum.fin 2)]).aggregated
            = specFirstSeenKeys ((optionWrites (optionsOf entry)).map Prod.fst))
      ∧ ∀ k, lookupKey (QuestionRecord.mk (JValue.str "q") (JValue.str "q")
            [("a", JNum.fin 3), ("b", JNum.fin 2)]).aggregated k
          = specLastWrite k (optionWrites (optionsOf entry)) := by
  apply c4_first_seen_last_write
  show QuestionRecord.mk (JValue.str "q") (JValue.str "q")
      [("a", JNum.fin 3), ("b", JNum.fin 2)]
    ∈ [QuestionRecord.mk (JValue.str "q") (JValue.str "q")
      [("a", JNum.fin 3), ("b", JNum.fin 2)]]
  exact List.mem_singleton.mpr rfl

/-- Claim C5: every count in the aggregated map is the stored count of a
retained option of the list: the option's count parsed as a number when
that parse is finite, and exactly `0` when the parse is non-finite or
the count is absent. -/
theorem c5_count_default (options : List JValue) (k : String) (v : JNum)
    (h : lookupKey (aggregateOptions options) k = some v) :
    ∃ option ∈ options, truthy (getField option "id") = true
      ∧ k = jsToString (getField option "id")
      ∧ v = storedCount option
      ∧ ((parsedCount option).isFinite = true → v = parsedCount option)
      ∧ ((parsedCount option).isFinite = false → v = JNum.fin 0)
      ∧ (getField option "count" = JValue.undefined → v = JNum.fin 0) := by
  rw [aggregate_lookup] at h
  have hmem : (k, v) ∈ optionWrites options := specLastWrite_mem _ _ _ h
  rw [optionWrites] at hmem
  obtain ⟨o, ho, hko⟩ := List.mem_map.mp hmem
  obtain ⟨hoo, hot⟩ := List.mem_filter.mp ho
  have hk : k = jsToString (getField o "id") := by
    have := congrArg Prod.fst hko
    exact this.symm
  have hv : v = storedCount o := by
    have := congrArg Prod.snd hko
    exact this.symm
  subst hv
  refine ⟨o, hoo, hot, hk, rfl, ?_, ?_, ?_⟩
  · intro hf
    exact storedCount_of_finite o hf
  · intro hf
    exact storedCount_of_nonfinite o hf
  · intro ha
    exact storedCount_of_absent o ha

theorem c5_witness :
    ∃ option ∈ [JValue.obj [("id", JValue.str "a"), ("count", JValue.str "oops")]],
      truthy (getField option "id") = true
      ∧ "a" = jsToString (getField option "id")
      ∧ JNum.fin 0 = storedCount option
      ∧ ((parsedCount option).isFinite = true → JNum.fin 0 = parsedCount option)
      ∧ ((parsedCount option).isFinite = false → JNum.fin 0 = JNum.fin 0)
      ∧ (getField option "count" = JValue.undefined → JNum.fin 0 = JNum.fin 0) :=
  c5_count_default
    [JValue.obj [("id", JValue.str "a"), ("count", JValue.str "oops")]]
    "a" (JNum.fin 0) rfl

/-- Claim C6 as stated is false on the code: a question whose option
carries the count `-3/2` is normalised to an aggregated value that is
neither non-negative nor an integer. -/
theorem c6_counterexample :
    ∃ r ∈ normalisePayload (JValue.obj [("values", JValue.arr [JValue.obj
        [("id", JValue.str "q"), ("options", JValue.arr [JValue.obj
          [("id", JValue.str "a"),
           ("count", JValue.num (JNum.fin (-(3 : ℚ)/2)))]])]])]),
      ∃ kv ∈ r.aggregated, ¬ ∃ n : ℕ, kv.2 = JNum.fin n := by
  refine ⟨QuestionRecord.mk (JValue.str "q") (JValue.str "q")
      [("a", JNum.fin (-(3 : ℚ)/2))], ?_,
    ("a", JNum.fin (-(3 : ℚ)/2)), List.mem_singleton.mpr rfl, ?_⟩
  · show QuestionRecord.mk (JValue.str "q") (JValue.str "q")
        [("a", JNum.fin (-(3 : ℚ)/2))]
      ∈ [QuestionRecord.mk (JValue.str "q") (JValue.str "q")
        [("a", JNum.fin (-(3 : ℚ)/2))]]
    exact List.mem_singleton.mpr rfl
  · rintro ⟨n, hn⟩
    have hq : (-(3 : ℚ)/2) = (n : ℚ) := by injection hn
    have h0 : (0 : ℚ) ≤ (n : ℚ) := Nat.cast_nonneg n
    rw [← hq] at h0
    norm_num at h0

/-- Claim C6 amended: every value in the `aggregated` map of every
record produced by `normalisePayload` is a finite number (the finite
parse of the option's count, or the default `0`). -/
theorem c6_amended_values_finite (payload : JValue) (r : QuestionRecord)
    (hr : r ∈ normalisePayload payload)
    (kv : String × JNum) (hkv : kv ∈ r.aggregated) :
    kv.2.isFinite = true := by
  rw [normalisePayload] at hr
  obtain ⟨entry, _, hre⟩ := List.mem_map.mp hr
  subst hre
  have hmem : kv ∈ aggregateOptions (optionsOf entry) := hkv
  have hw := mem_aggregateOptions _ _ hmem
  rw [optionWrites] at hw
  obtain ⟨o, _, hko⟩ := List.mem_map.mp hw
  rw [← hko]
  exact storedCount_isFinite o

theorem c6_amended_witness :
    (("a", JNum.fin 5) : String × JNum).2.isFinite = true := by
  apply c6_amended_values_finite
    (JValue.obj [("values", JValue.arr [JValue.obj
      [("id", JValue.str "q"), ("options", JValue.arr [JValue.obj
        [("id", JValue.str "a"), ("count", JValue.num (JNum.fin 5))]])]])])
    (QuestionRecord.mk (JValue.str "q") (JValue.str "q") [("a", JNum.fin 5)])
  · show QuestionRecord.mk (JValue.str "q") (JValue.str "q") [("a", JNum.fin 5)]
      ∈ [QuestionRecord.mk (JValue.str "q") (JValue.str "q") [("a", JNum.fin 5)]]
    exact List.mem_singleton.mpr rfl
  · exact List.mem_singleton.mpr rfl

/-- Claim C9: `buildPalette` returns the empty list for non-positive
sizes and otherwise a list of length exactly `size` whose element at
every position `index` is `source[index % source.length]`, where the
source is the override list when it is a non-empty array and the fixed
10-colour default palette otherwise. -/
theorem c9_palette_cycles (size : Int) (overrideColors : JValue) :
    (size ≤ 0 → buildPalette size overrideColors = [])
    ∧ (buildPalette size overrideColors).length = size.toNat
    ∧ ∀ index : Nat, index < size.toNat →
        (buildPalette size overrideColors)[index]?
          = (sourcePalette overrideColors)[index % (sourcePalette overrideColors).length]? := by
  refine ⟨?_, ?_, ?_⟩
  · intro h
    rw [buildPalette, if_pos h]
  · by_cases h : size ≤ 0
    · rw [buildPalette, if_pos h, Int.toNat_of_nonpos h]
      rfl
    · rw [buildPalette, if_neg h]
      simp
  · intro index hlt
    have hpos : ¬ size ≤ 0 := by
      intro hle
      rw [Int.toNat_of_nonpos hle] at hlt
      exact Nat.not_lt_zero index hlt
    have hm : index % (sourcePalette overrideColors).length
        < (sourcePalette overrideColors).length :=
      Nat.mod_lt index (sourcePalette_length_pos overrideColors)
    rw [buildPalette, if_neg hpos]
    simp only [List.getElem?_map, List.getElem?_range hlt, Option.map_some']
    rw [List.getD_eq_getElem?_getD, List.getElem?_eq_getElem hm]
    rfl

theorem c9_witness :
    (buildPalette 12 JValue.null)[10]?
      = (sourcePalette JValue.null)[10 % (sourcePalette JValue.null).length]? :=
  (c9_palette_cycles 12 JValue.null).2.2 10 (by decide)

end TMDWidget
